import Mathlib

/-!
Verification of the netblast core of hypr-bench (`cmd/root.go`,
`runNetblastTests` and its helpers), shallowly embedded in Lean.

Conventions of the embedding:
* Go `float64` values are modelled as `ℚ` (exact rational arithmetic) except in
  the Haversine distance calculation, where the trigonometric functions force a
  model over `ℝ`.
* Go `int` is modelled as `ℤ`.
* `strconv.ParseFloat` is modelled by `goParseFloatL` below, covering the
  decimal forms (optional sign, digits with an optional fraction part, optional
  exponent).  The `Inf`/`NaN`/hexadecimal/underscore forms accepted by Go are
  not modelled; the capacity and location strings handled by this program never
  use them.
* `strings.Split` with a one-character separator is modelled by `goSplit`,
  `strings.Contains` by `containsSub`.
* External effects (the `curl` fetch, `json.Unmarshal`, the iperf3
  subprocesses) are modelled by explicit outcome parameters; the pure Go code
  downstream of each effect is transcribed directly.
-/

namespace HyprBench

/-- Numeric value of a list of decimal digit characters (most significant
first), as accumulated left to right. -/
def natOfDigits (l : List Char) : ℕ :=
  l.foldl (fun n c => 10 * n + (c.toNat - 48)) 0

/-- Model of Go `strings.Split(s, sep)` for a one-character separator `sep`,
working on the character list of `s`.  Like Go, splitting the empty string
yields `[[]]`, and adjacent separators yield empty fields. -/
def goSplit (sep : Char) : List Char → List (List Char)
  | [] => [[]]
  | c :: t =>
    match goSplit sep t with
    | [] => [[]]
    | h :: r => if c = sep then [] :: h :: r else (c :: h) :: r

/-- Model of Go `strings.Contains(s, sub)` specialised to the character-list
level: `true` iff `needle` occurs as a contiguous run inside `hay`. -/
def containsSub : List Char → List Char → Bool
  | hay, needle =>
    needle.isPrefixOf hay ||
      match hay with
      | [] => false
      | _ :: t => containsSub t needle

/-- Model of Go `strconv.ParseFloat(s, 64)` on a character list, restricted to
the decimal forms: optional sign, integer digits and/or a fraction part
(at least one digit overall), and an optional `e`/`E` exponent with optional
sign.  Returns the exact rational value, `none` on any syntax error (Go
additionally returns the value `0` together with the error; call sites that
discard the error therefore read `0`, which `Option.getD 0` reproduces). -/
def goParseFloatL (cs : List Char) : Option ℚ :=
  let signAndRest : ℚ × List Char :=
    match cs with
    | [] => (1, cs)
    | c :: t => if c = '+' then (1, t) else if c = '-' then (-1, t) else (1, cs)
  let sign := signAndRest.1
  let cs1 := signAndRest.2
  let intDigits := cs1.takeWhile Char.isDigit
  let cs2 := cs1.dropWhile Char.isDigit
  let fracAndRest : List Char × List Char :=
    match cs2 with
    | [] => ([], cs2)
    | c :: t => if c = '.' then (t.takeWhile Char.isDigit, t.dropWhile Char.isDigit) else ([], cs2)
  let fracDigits := fracAndRest.1
  let cs3 := fracAndRest.2
  if intDigits.length + fracDigits.length = 0 then none
  else
    let mant : ℚ := (natOfDigits (intDigits ++ fracDigits) : ℚ) / (10 : ℚ) ^ fracDigits.length
    match cs3 with
    | [] => some (sign * mant)
    | c :: t =>
      if c = 'e' ∨ c = 'E' then
        let esignAndRest : ℤ × List Char :=
          match t with
          | [] => (1, t)
          | c2 :: u => if c2 = '+' then (1, u) else if c2 = '-' then (-1, u) else (1, t)
        let esign := esignAndRest.1
        let t1 := esignAndRest.2
        let eDigits := t1.takeWhile Char.isDigit
        let rest := t1.dropWhile Char.isDigit
        if eDigits.length = 0 ∨ rest.length ≠ 0 then none
        else some (sign * mant * (10 : ℚ) ^ (esign * (natOfDigits eDigits : ℤ)))
      else none

/-- Model of `strconv.ParseFloat` on a `String`. -/
def goParseFloat (s : String) : Option ℚ :=
  goParseFloatL s.toList

/-- Multiplier capacity parse, from `runNetblastTests` (root.go:3536-3545):
`strings.Split(bandwidthStr, "x")`, and if exactly two parts and both
`ParseFloat` calls succeed, the product `count * speed`; otherwise no value. -/
def parseMultiplier (cs : List Char) : Option ℚ :=
  match goSplit 'x' cs with
  | [p1, p2] =>
    match goParseFloatL p1, goParseFloatL p2 with
    | some count, some speed => some (count * speed)
    | _, _ => none
  | _ => none

/-- Capacity-string parse from `runNetblastTests` (root.go:3530-3551):
`bandwidthGbps` starts at the default `1`; if the string contains `"x"` it is
split as a `count x speed` multiplier, otherwise parsed as a plain number; any
parse failure leaves the default `1`. -/
def parseBandwidthGbps (s : String) : ℚ :=
  if containsSub s.toList ['x'] then (parseMultiplier s.toList).getD 1
  else (goParseFloatL s.toList).getD 1

/-- Composite score from `runNetblastTests` (root.go:3556-3574):
`bandwidthScore := (bandwidthGbps / 100) * 100` capped at `100`,
`distanceScore := Distance / 200` capped at `100`,
`score := bandwidthScore*0.8 - distanceScore*0.2`. -/
def computeScore (bandwidthGbps : ℚ) (distanceKm : ℤ) : ℚ :=
  let bandwidthScore : ℚ := bandwidthGbps / 100 * 100
  let bandwidthScore := if bandwidthScore > 100 then 100 else bandwidthScore
  let distanceScore : ℚ := (distanceKm : ℚ) / 200
  let distanceScore := if distanceScore > 100 then 100 else distanceScore
  bandwidthScore * 0.8 - distanceScore * 0.2

/-- Fields of the struct that `runNetblastTests` unmarshals the ipinfo.io
response into (root.go:3287-3294). -/
structure IpInfoResponse where
  ip : String
  city : String
  region : String
  country : String
  loc : String
  timezone : String
deriving DecidableEq

/-- Latitude/longitude extraction from `runNetblastTests` (root.go:3301-3309):
`selfLat`/`selfLon` start at `0`; if `Loc` is nonempty and splits on `","` into
exactly two parts, each part is passed to `strconv.ParseFloat` with the error
discarded (`selfLat, _ = strconv.ParseFloat(...)`), so an unparsable part
leaves the coordinate at `0`. -/
def extractSelfCoords (loc : String) : ℚ × ℚ :=
  if loc ≠ "" then
    match goSplit ',' loc.toList with
    | [p1, p2] => ((goParseFloatL p1).getD 0, (goParseFloatL p2).getD 0)
    | _ => (0, 0)
  else (0, 0)

/-- Outcome of the ipinfo.io fetch-and-unmarshal prefix of the locate step:
the `curl` invocation can fail, `json.Unmarshal` can fail, or a response
struct is produced. -/
inductive GeoFetch where
  | netError
  | unmarshalError
  | response (r : IpInfoResponse)
deriving DecidableEq

/-- Locate step of `runNetblastTests` (root.go:3280-3312): a `curl` failure or
an unmarshal failure returns an error; otherwise the function proceeds with
the unmarshalled struct and the coordinates of `extractSelfCoords` — no field
of the struct (in particular neither the parsed coordinates nor the country)
is validated. -/
def locate : GeoFetch → Except String (IpInfoResponse × ℚ × ℚ)
  | .netError => .error "error getting self location"
  | .unmarshalError => .error "error parsing self location"
  | .response r => .ok (r, extractSelfCoords r.loc)

/-- Helper: the source's `if x > 100 { x = 100 }` capping is the `min` with
`100` used by the specification. -/
theorem cap_eq_min (x : ℚ) : (if x > 100 then (100 : ℚ) else x) = min 100 x := by
  rw [min_def]
  split_ifs with h1 h2 <;> linarith

/-- C7: for every scored candidate, `score = 0.8 × bandwidthScore − 0.2 ×
distanceScore` with `bandwidthScore = min(100, advertisedBandwidthGbps / 100 ×
100)` and `distanceScore = min(100, distanceKm / 200)`. -/
theorem score_formula (g : ℚ) (d : ℤ) :
    computeScore g d = 0.8 * min 100 (g / 100 * 100) - 0.2 * min 100 ((d : ℚ) / 200) := by
  simp only [computeScore, cap_eq_min]
  ring

/-- C7 witness: the formula evaluated at a concrete candidate
(10 Gbps, 100 km). -/
theorem score_formula_witness :
    computeScore 10 100 = 0.8 * min 100 ((10 : ℚ) / 100 * 100) - 0.2 * min 100 ((100 : ℚ) / 200) :=
  score_formula 10 100

/-- C9: the capacity string `"2x10"` parses to `20`, `"40"` parses to `40`,
and every capacity string that parses neither as a plain number nor as a
`count x speed` multiplier yields the default `1` Gbps instead of failing. -/
theorem capacity_parse :
    parseBandwidthGbps "2x10" = 20 ∧ parseBandwidthGbps "40" = 40 ∧
      ∀ s : String, goParseFloat s = none →
        (∀ p1 p2 : List Char, goSplit 'x' s.toList = [p1, p2] →
          goParseFloatL p1 = none ∨ goParseFloatL p2 = none) →
        parseBandwidthGbps s = 1 := by
  refine ⟨?_, ?_, ?_⟩
  · simp +decide [parseBandwidthGbps, parseMultiplier, goSplit, goParseFloatL, natOfDigits,
      containsSub]
    norm_num
  · simp +decide [parseBandwidthGbps, parseMultiplier, goSplit, goParseFloatL, natOfDigits,
      containsSub]
  · intro s h1 h2
    unfold goParseFloat at h1
    unfold parseBandwidthGbps
    split
    · suffices hm : parseMultiplier s.toList = none by rw [hm]; rfl
      unfold parseMultiplier
      split
      · rename_i p1 p2 heq
        rcases h2 p1 p2 heq with h | h
        · rw [h]
        · rw [h]
          cases goParseFloatL p1 <;> rfl
      · rfl
    · rw [h1]
      rfl

/-- C9 witness: the unparsable capacity string `"N/A"` defaults to `1`. -/
theorem capacity_parse_witness : parseBandwidthGbps "N/A" = 1 :=
  capacity_parse.2.2 "N/A" (by decide)
    (by
      intro p1 p2 hsp
      simp [show goSplit 'x' ['N', '/', 'A'] = [['N', '/', 'A']] from by decide] at hsp)

/-- Concrete ipinfo.io response whose `loc` field holds no parsable latitude or
longitude and whose `country` field is empty. -/
def failingGeo : IpInfoResponse :=
  ⟨"203.0.113.7", "", "", "", "abc,def", ""⟩

/-- C1 (code bug evaluation): the locate step accepts a response whose
latitude, longitude and country are all unparsable or missing — it returns
success with the coordinates silently defaulted to `(0, 0)` instead of the
error the specification requires, and the run proceeds to distance scoring
with that bogus self-location. -/
theorem locate_accepts_unparsable_location :
    locate (.response failingGeo) = .ok (failingGeo, 0, 0) := rfl

/-- Go struct `NetblastResult` (root.go:165-174). -/
structure NetblastResult where
  host : String
  port : ℤ
  location : String
  distance : ℤ
  downloadMbps : ℚ
  uploadMbps : ℚ
  testCompleted : Bool
  rank : ℤ
deriving DecidableEq

/-- One step of the insertion sort underlying the aggregation sort: insert `x`
into an already-sorted list, strictly before the first entry whose
`downloadMbps` it exceeds (the comparator of root.go:3966-3968,
`results[i].DownloadMbps > results[j].DownloadMbps`).  `sort.Slice` runs
exactly this stable insertion sort for slices shorter than 12 elements, and
the netblast results slice never holds more than the 5 selected servers. -/
def goOrderedInsert (x : NetblastResult) : List NetblastResult → List NetblastResult
  | [] => [x]
  | y :: l => if y.downloadMbps < x.downloadMbps then x :: y :: l else y :: goOrderedInsert x l

/-- The aggregation sort of root.go:3965-3968: sort the collected results by
descending `downloadMbps`, processing the collected list left to right. -/
def sortResults (l : List NetblastResult) : List NetblastResult :=
  l.foldl (fun acc x => goOrderedInsert x acc) []

/-- Rank assignment of root.go:3970-3973 (`results[i].Rank = i + 1`),
generalised over the first rank so that it can be defined by recursion. -/
def assignRanksFrom (n : ℤ) : List NetblastResult → List NetblastResult
  | [] => []
  | r :: t => { r with rank := n } :: assignRanksFrom (n + 1) t

/-- The result aggregation of root.go:3960-3973: sort descending by
`downloadMbps`, then overwrite `rank` with the 1-based position. -/
def aggregate (l : List NetblastResult) : List NetblastResult :=
  assignRanksFrom 1 (sortResults l)

/-- Non-increasing order on `downloadMbps`, the sortedness produced by the
aggregation sort. -/
def DlSorted (l : List NetblastResult) : Prop :=
  l.Pairwise fun a b => b.downloadMbps ≤ a.downloadMbps

/-- Membership after an insertion step. -/
theorem mem_goOrderedInsert {z x : NetblastResult} :
    ∀ {l : List NetblastResult}, z ∈ goOrderedInsert x l → z = x ∨ z ∈ l := by
  intro l
  induction l with
  | nil => simp [goOrderedInsert]
  | cons y t ih =>
    simp only [goOrderedInsert]
    split
    · intro h
      exact List.mem_cons.1 h
    · intro h
      rcases List.mem_cons.1 h with h | h
      · exact Or.inr (by simp [h])
      · rcases ih h with h | h
        · exact Or.inl h
        · exact Or.inr (List.mem_cons_of_mem _ h)

/-- An insertion step permutes the inserted element onto the list. -/
theorem goOrderedInsert_perm (x : NetblastResult) :
    ∀ l : List NetblastResult, List.Perm (goOrderedInsert x l) (x :: l) := by
  intro l
  induction l with
  | nil => simp [goOrderedInsert]
  | cons y t ih =>
    simp only [goOrderedInsert]
    split
    · exact List.Perm.refl _
    · exact (List.Perm.cons y ih).trans (List.Perm.swap x y t)

/-- An insertion step preserves sortedness. -/
theorem goOrderedInsert_sorted {x : NetblastResult} :
    ∀ {l : List NetblastResult}, DlSorted l → DlSorted (goOrderedInsert x l) := by
  intro l
  induction l with
  | nil => simp [goOrderedInsert, DlSorted]
  | cons y t ih =>
    intro h
    rcases List.pairwise_cons.1 h with ⟨hy, ht⟩
    simp only [goOrderedInsert]
    split
    · rename_i hlt
      refine List.pairwise_cons.2 ⟨?_, h⟩
      intro b hb
      rcases List.mem_cons.1 hb with hb | hb
      · exact le_of_lt (hb ▸ hlt)
      · exact le_trans (hy b hb) (le_of_lt hlt)
    · rename_i hnlt
      refine List.pairwise_cons.2 ⟨?_, ih ht⟩
      intro b hb
      rcases mem_goOrderedInsert hb with hb | hb
      · exact hb ▸ le_of_not_lt hnlt
      · exact hy b hb

/-- Folding insertion steps over any start accumulator preserves sortedness. -/
theorem foldl_insert_sorted :
    ∀ (rest acc : List NetblastResult), DlSorted acc →
      DlSorted (rest.foldl (fun a x => goOrderedInsert x a) acc) := by
  intro rest
  induction rest with
  | nil => intro acc h; exact h
  | cons s t ih =>
    intro acc h
    exact ih (goOrderedInsert s acc) (goOrderedInsert_sorted h)

/-- Folding insertion steps permutes the accumulator and the input. -/
theorem foldl_insert_perm :
    ∀ (rest acc : List NetblastResult),
      List.Perm (rest.foldl (fun a x => goOrderedInsert x a) acc) (acc ++ rest) := by
  intro rest
  induction rest with
  | nil => intro acc; simp
  | cons s t ih =>
    intro acc
    refine (ih (goOrderedInsert s acc)).trans ?_
    refine (List.Perm.append_right t (goOrderedInsert_perm s acc)).trans ?_
    exact List.perm_middle.symm

/-- The aggregation sort is sorted non-increasing by `downloadMbps`. -/
theorem sortResults_sorted (l : List NetblastResult) : DlSorted (sortResults l) :=
  foldl_insert_sorted l [] (List.Pairwise.nil)

/-- The aggregation sort permutes its input. -/
theorem sortResults_perm (l : List NetblastResult) : List.Perm (sortResults l) l := by
  simpa using foldl_insert_perm l []

/-- Inserting into a sorted list places the new element after all entries with
an equal `downloadMbps`, so filtering one `downloadMbps` value commutes with
the insertion up to appending the new element. -/
theorem filter_goOrderedInsert (x : NetblastResult) (q : ℚ) :
    ∀ l : List NetblastResult, DlSorted l →
      (goOrderedInsert x l).filter (fun r => decide (r.downloadMbps = q)) =
        l.filter (fun r => decide (r.downloadMbps = q)) ++
          (if x.downloadMbps = q then [x] else []) := by
  intro l
  induction l with
  | nil =>
    intro _
    by_cases hxq : x.downloadMbps = q <;> simp [goOrderedInsert, List.filter_cons, hxq]
  | cons y t ih =>
    intro hsort
    rcases List.pairwise_cons.1 hsort with ⟨hy, ht⟩
    simp only [goOrderedInsert]
    split
    · rename_i hlt
      by_cases hxq : x.downloadMbps = q
      · have hnil : (y :: t).filter (fun r => decide (r.downloadMbps = q)) = [] := by
          rw [List.filter_eq_nil_iff]
          intro a ha
          rcases List.mem_cons.1 ha with ha | ha
          · subst ha
            simp only [decide_eq_true_eq]
            intro haq
            exact absurd (haq ▸ hxq ▸ hlt) (lt_irrefl _)
          · simp only [decide_eq_true_eq]
            intro haq
            have : a.downloadMbps ≤ y.downloadMbps := hy a ha
            rw [haq, ← hxq] at this
            exact absurd (lt_of_lt_of_le hlt this) (lt_irrefl _)
        rw [List.filter_cons, if_pos (by simp [hxq]), hnil]
        simp [hxq]
      · rw [List.filter_cons, if_neg (by simp [hxq])]
        simp [hxq]
    · rename_i hnlt
      by_cases hyq : y.downloadMbps = q <;>
        simp [List.filter_cons, hyq, ih ht]

/-- Folding insertion steps preserves the per-value filter, i.e. the sort is
stable. -/
theorem foldl_insert_filter (q : ℚ) :
    ∀ (rest acc : List NetblastResult), DlSorted acc →
      (rest.foldl (fun a x => goOrderedInsert x a) acc).filter
          (fun r => decide (r.downloadMbps = q)) =
        acc.filter (fun r => decide (r.downloadMbps = q)) ++
          rest.filter (fun r => decide (r.downloadMbps = q)) := by
  intro rest
  induction rest with
  | nil => intro acc _; simp
  | cons s t ih =>
    intro acc hacc
    have hstep := filter_goOrderedInsert s q acc hacc
    have := ih (goOrderedInsert s acc) (goOrderedInsert_sorted hacc)
    rw [List.foldl_cons, this, hstep]
    by_cases hsq : s.downloadMbps = q <;> simp [List.filter_cons, hsq]

/-- Rank assignment keeps the length. -/
theorem assignRanksFrom_length :
    ∀ (n : ℤ) (l : List NetblastResult), (assignRanksFrom n l).length = l.length := by
  intro n l
  induction l generalizing n with
  | nil => rfl
  | cons r t ih => simp [assignRanksFrom, ih]

/-- Every element produced by rank assignment is an input element with its
`rank` field overwritten. -/
theorem mem_assignRanksFrom {x : NetblastResult} :
    ∀ {n : ℤ} {l : List NetblastResult}, x ∈ assignRanksFrom n l →
      ∃ y ∈ l, ∃ m : ℤ, x = { y with rank := m } := by
  intro n l
  induction l generalizing n with
  | nil => intro h; cases h
  | cons r t ih =>
    intro h
    rcases List.mem_cons.1 h with h | h
    · exact ⟨r, List.mem_cons_self r t, n, h⟩
    · rcases ih h with ⟨y, hy, m, hm⟩
      exact ⟨y, List.mem_cons_of_mem r hy, m, hm⟩

/-- Rank assignment preserves any pairwise relation that ignores `rank`. -/
theorem assignRanksFrom_pairwise {P : NetblastResult → NetblastResult → Prop}
    (hP : ∀ (a b : NetblastResult) (m k : ℤ), P a b → P { a with rank := m } { b with rank := k }) :
    ∀ (n : ℤ) {l : List NetblastResult}, l.Pairwise P → (assignRanksFrom n l).Pairwise P := by
  intro n l
  induction l generalizing n with
  | nil => intro _; exact List.Pairwise.nil
  | cons r t ih =>
    intro h
    rcases List.pairwise_cons.1 h with ⟨hr, ht⟩
    refine List.pairwise_cons.2 ⟨?_, ih (n + 1) ht⟩
    intro z hz
    rcases mem_assignRanksFrom hz with ⟨y, hy, m, hm⟩
    exact hm ▸ hP r y n m (hr y hy)

/-- The rank fields written by `assignRanksFrom n` are `n, n+1, …` in order. -/
theorem assignRanksFrom_map_rank :
    ∀ (n : ℤ) (l : List NetblastResult),
      (assignRanksFrom n l).map (fun r => r.rank) =
        (List.range l.length).map (fun i : ℕ => n + (i : ℤ)) := by
  intro n l
  induction l generalizing n with
  | nil => rfl
  | cons r t ih =>
    simp only [assignRanksFrom, List.map_cons]
    rw [ih, List.length_cons, List.range_succ_eq_map, List.map_cons, List.map_map]
    refine congrArg₂ List.cons (by simp) ?_
    refine List.map_congr_left ?_
    intro i _
    simp only [Function.comp_apply]
    push_cast
    ring

/-- C3: for every input list, the aggregated output is sorted non-increasing
by `downloadMbps`, every `downloadMbps = −1` entry comes after every entry
with positive `downloadMbps`, and the rank fields read in order are exactly
`1..N`. -/
theorem aggregate_sorted_and_ranked (l : List NetblastResult) :
    (aggregate l).Pairwise (fun a b => b.downloadMbps ≤ a.downloadMbps)
    ∧ (aggregate l).Pairwise
        (fun a b => ¬(a.downloadMbps = -1 ∧ 0 < b.downloadMbps))
    ∧ (aggregate l).map (fun r => r.rank) =
        (List.range l.length).map (fun i : ℕ => (i : ℤ) + 1) := by
  have hs : DlSorted (sortResults l) := sortResults_sorted l
  have h1 : (aggregate l).Pairwise (fun a b => b.downloadMbps ≤ a.downloadMbps) :=
    assignRanksFrom_pairwise (fun a b m k h => h) 1 hs
  refine ⟨h1, h1.imp ?_, ?_⟩
  · intro a b hle
    rintro ⟨ha, hb⟩
    rw [ha] at hle
    linarith
  · rw [aggregate, assignRanksFrom_map_rank, (sortResults_perm l).length_eq]
    refine List.map_congr_left ?_
    intro i _
    ring

/-- Two collected result lists that are permutations of each other: the same
two unmeasured results, arriving in the two possible completion orders. -/
def resTieA : NetblastResult :=
  ⟨"a.example", 5201, "Paris, FR", 100, -1, -1, false, 1⟩

/-- Second unmeasured result, tied with `resTieA` on `downloadMbps`. -/
def resTieB : NetblastResult :=
  ⟨"b.example", 5201, "Berlin, DE", 200, -1, -1, false, 2⟩

/-- C2 counterexample: the two arrival orders of the same two tied
measurements are permutations of each other, yet aggregation ranks them
differently — the ranked output is not order-independent. -/
theorem aggregate_not_order_independent :
    List.Perm [resTieA, resTieB] [resTieB, resTieA] ∧
      aggregate [resTieA, resTieB] ≠ aggregate [resTieB, resTieA] := by
  constructor
  · exact List.Perm.swap resTieB resTieA []
  · decide

/-- Descending strict order on `downloadMbps`. -/
def dlGT (a b : NetblastResult) : Prop := b.downloadMbps < a.downloadMbps

instance : IsAntisymm NetblastResult dlGT :=
  ⟨fun _ _ h1 h2 => absurd (lt_trans h1 h2) (lt_irrefl _)⟩

/-- C2 amended: the aggregation sort is stable (entries with equal
`downloadMbps` keep their prior relative order, stated as: filtering any one
`downloadMbps` value from the sorted list returns exactly the input's
subsequence for that value), and the ranked output is permutation-independent
when all `downloadMbps` values are pairwise distinct; with ties, completion
order can change the output (see the counterexample). -/
theorem aggregate_stable_and_perm_independent :
    (∀ (l : List NetblastResult) (q : ℚ),
        (sortResults l).filter (fun r => decide (r.downloadMbps = q)) =
          l.filter (fun r => decide (r.downloadMbps = q)))
    ∧ ∀ l₁ l₂ : List NetblastResult, List.Perm l₁ l₂ →
        l₁.Pairwise (fun a b => a.downloadMbps ≠ b.downloadMbps) →
        aggregate l₁ = aggregate l₂ := by
  constructor
  · intro l q
    simpa using foldl_insert_filter q l [] List.Pairwise.nil
  · intro l₁ l₂ hperm hdist
    suffices hsr : sortResults l₁ = sortResults l₂ by
      rw [aggregate, aggregate, hsr]
    have hsym : ∀ {a b : NetblastResult},
        a.downloadMbps ≠ b.downloadMbps → b.downloadMbps ≠ a.downloadMbps :=
      fun h => h.symm
    have hd1 : (sortResults l₁).Pairwise
        (fun a b => a.downloadMbps ≠ b.downloadMbps) :=
      ((sortResults_perm l₁).pairwise_iff hsym).2 hdist
    have hd2 : (sortResults l₂).Pairwise
        (fun a b => a.downloadMbps ≠ b.downloadMbps) :=
      ((sortResults_perm l₂).pairwise_iff hsym).2
        ((hperm.pairwise_iff hsym).1 hdist)
    have hstrict : ∀ lx : List NetblastResult, DlSorted lx →
        lx.Pairwise (fun a b => a.downloadMbps ≠ b.downloadMbps) →
        List.Sorted dlGT lx := by
      intro lx hsorted hne
      refine (hsorted.and hne).imp ?_
      rintro a b ⟨hle, hneq⟩
      exact lt_of_le_of_ne hle fun e => hneq e.symm
    have hs1 : List.Sorted dlGT (sortResults l₁) :=
      hstrict _ (sortResults_sorted l₁) hd1
    have hs2 : List.Sorted dlGT (sortResults l₂) :=
      hstrict _ (sortResults_sorted l₂) hd2
    have hp : List.Perm (sortResults l₁) (sortResults l₂) :=
      (sortResults_perm l₁).trans (hperm.trans (sortResults_perm l₂).symm)
    exact List.eq_of_perm_of_sorted hp hs1 hs2

/-- First of two distinct-throughput results for the C2 witness. -/
def resDistinctC : NetblastResult :=
  ⟨"c.example", 5201, "Paris, FR", 100, 50, 20, true, 1⟩

/-- Second of two distinct-throughput results for the C2 witness. -/
def resDistinctD : NetblastResult :=
  ⟨"d.example", 5202, "Berlin, DE", 200, 10, 5, true, 2⟩

/-- C2 amended witness: on two results with distinct `downloadMbps`, the two
arrival orders aggregate identically. -/
theorem aggregate_stable_and_perm_independent_witness :
    aggregate [resDistinctC, resDistinctD] = aggregate [resDistinctD, resDistinctC] :=
  aggregate_stable_and_perm_independent.2 [resDistinctC, resDistinctD]
    [resDistinctD, resDistinctC] (List.Perm.swap resDistinctD resDistinctC [])
    (by decide)

/-- One entry of the scored server list built by `runNetblastTests`
(the anonymous `serversWithBandwidth` struct, root.go:3514-3528). -/
structure ServerEntry where
  host : String
  port : ℤ
  city : String
  country : String
  distance : ℤ
  lat : ℚ
  lon : ℚ
  command : String
  options : String
  bandwidth : String
  provider : String
  bandwidthGbps : ℚ
  bandwidthMbps : ℚ
  score : ℚ
deriving DecidableEq

/-- The duplicate check used by both selection passes (root.go:3684-3693 and
root.go:3717-3725): a candidate is skipped when some already-selected entry
has the same `Host` and `Port`. -/
def alreadySelected (sel : List ServerEntry) (s : ServerEntry) : Bool :=
  sel.any fun t => decide (t.host = s.host) && decide (t.port = s.port)

/-- Location key of the diversity pass (`server.City + "," + server.Country`,
root.go:3696). -/
def locationKey (s : ServerEntry) : String :=
  s.city ++ "," ++ s.country

/-- Membership in the `selectedProviders` set.  In the source this is a
`map[string]bool` that receives exactly one insertion per appended server, so
membership coincides with a provider scan of the selected list. -/
def providerSeen (sel : List ServerEntry) (s : ServerEntry) : Bool :=
  sel.any fun t => decide (t.provider = s.provider)

/-- Membership in the `selectedLocations` set; as with `providerSeen`, the
source map receives exactly one insertion per appended server. -/
def locationSeen (sel : List ServerEntry) (s : ServerEntry) : Bool :=
  sel.any fun t => decide (locationKey t = locationKey s)

/-- Diversity pass of root.go:3682-3710: walk the pool in order, skip entries
already selected (same host and port), skip entries whose provider AND
location are both already represented, append the rest, and break once the
selection reaches 5 entries (the break follows the append). -/
def diversityPass : List ServerEntry → List ServerEntry → List ServerEntry
  | [], sel => sel
  | s :: rest, sel =>
    if alreadySelected sel s then diversityPass rest sel
    else if providerSeen sel s && locationSeen sel s then diversityPass rest sel
    else
      let sel2 := sel ++ [s]
      if 5 ≤ sel2.length then sel2 else diversityPass rest sel2

/-- Fill pass of root.go:3713-3733 (entered only when fewer than 5 entries
were selected): append any not-yet-selected entry regardless of diversity,
breaking once the selection reaches 5. -/
def fillPass : List ServerEntry → List ServerEntry → List ServerEntry
  | [], sel => sel
  | s :: rest, sel =>
    if alreadySelected sel s then fillPass rest sel
    else
      let sel2 := sel ++ [s]
      if 5 ≤ sel2.length then sel2 else fillPass rest sel2

/-- Server selection of root.go:3614-3740, applied to the score-sorted
candidate list: keep candidates with `BandwidthMbps ≥ 1.5 ×
estimatedUserBandwidth`; if that leaves fewer than 5, fall back to the first
`min(10, n)` candidates of the full list; seed the selection with the first
pool entry; run the diversity pass, then (when still below 5) the fill pass;
finally truncate to 5. -/
def selectServers (estimatedUserBandwidth : ℚ) (sorted : List ServerEntry) : List ServerEntry :=
  let minRequiredBandwidth := estimatedUserBandwidth * 1.5
  let firstPass := sorted.filter fun s => decide (minRequiredBandwidth ≤ s.bandwidthMbps)
  let high := if firstPass.length < 5 then sorted.take (min 10 sorted.length) else firstPass
  let sel0 : List ServerEntry :=
    match high with
    | [] => []
    | h :: _ => [h]
  let sel1 := diversityPass high sel0
  let sel2 := if sel1.length < 5 then fillPass high sel1 else sel1
  if 5 < sel2.length then sel2.take 5 else sel2

/-- C8: selection never returns more than `maxServers = 5` entries, and on an
empty scored list it returns the empty list rather than an error. -/
theorem select_bounded_and_total (e : ℚ) (l : List ServerEntry) :
    (selectServers e l).length ≤ 5 ∧ selectServers e [] = [] := by
  constructor
  · have htrunc : ∀ x : List ServerEntry,
        (if 5 < x.length then x.take 5 else x).length ≤ 5 := by
      intro x
      split
      · simp [List.length_take]
      · omega
    simp only [selectServers]
    exact htrunc _
  · rfl

/-- Distinctness of the `(host, port)` pair, the invariant of C10. -/
def HostPortDistinct (l : List ServerEntry) : Prop :=
  l.Pairwise fun a b => ¬(a.host = b.host ∧ a.port = b.port)

/-- A guarded append preserves `(host, port)` distinctness. -/
theorem hostPortDistinct_append {sel : List ServerEntry} {s : ServerEntry}
    (h : HostPortDistinct sel) (hno : alreadySelected sel s = false) :
    HostPortDistinct (sel ++ [s]) := by
  rw [HostPortDistinct, List.pairwise_append]
  refine ⟨h, List.pairwise_singleton _ _, ?_⟩
  intro a ha b hb
  rcases List.mem_singleton.1 hb with rfl
  rintro ⟨hhost, hport⟩
  have := List.any_eq_false.1 hno a ha
  simp only [Bool.and_eq_true, decide_eq_true_eq] at this
  exact this ⟨hhost, hport⟩

/-- The diversity pass preserves `(host, port)` distinctness. -/
theorem diversityPass_distinct :
    ∀ (pool sel : List ServerEntry), HostPortDistinct sel →
      HostPortDistinct (diversityPass pool sel) := by
  intro pool
  induction pool with
  | nil => intro sel h; exact h
  | cons s rest ih =>
    intro sel h
    simp only [diversityPass]
    split
    · exact ih sel h
    · rename_i hdup
      split
      · exact ih sel h
      · have hgrow : HostPortDistinct (sel ++ [s]) :=
          hostPortDistinct_append h (Bool.of_not_eq_true hdup)
        split
        · exact hgrow
        · exact ih (sel ++ [s]) hgrow

/-- The fill pass preserves `(host, port)` distinctness. -/
theorem fillPass_distinct :
    ∀ (pool sel : List ServerEntry), HostPortDistinct sel →
      HostPortDistinct (fillPass pool sel) := by
  intro pool
  induction pool with
  | nil => intro sel h; exact h
  | cons s rest ih =>
    intro sel h
    simp only [fillPass]
    split
    · exact ih sel h
    · rename_i hdup
      have hgrow : HostPortDistinct (sel ++ [s]) :=
        hostPortDistinct_append h (Bool.of_not_eq_true hdup)
      split
      · exact hgrow
      · exact ih (sel ++ [s]) hgrow

/-- C10: the final selection never contains two entries with the same
`(host, port)` pair — both passes skip candidates whose host and port are
already selected, and every other operation preserves the invariant. -/
theorem select_hostport_distinct (e : ℚ) (l : List ServerEntry) :
    HostPortDistinct (selectServers e l) := by
  have hstep : ∀ x : List ServerEntry, HostPortDistinct x →
      HostPortDistinct (if 5 < x.length then x.take 5 else x) := by
    intro x hx
    split
    · exact List.Pairwise.sublist (List.take_sublist _ _) hx
    · exact hx
  have hfill : ∀ (pool sel1 : List ServerEntry), HostPortDistinct sel1 →
      HostPortDistinct (if sel1.length < 5 then fillPass pool sel1 else sel1) := by
    intro pool sel1 h
    split
    · exact fillPass_distinct _ _ h
    · exact h
  simp only [selectServers]
  apply hstep
  apply hfill
  apply diversityPass_distinct
  split
  · exact List.Pairwise.nil
  · exact List.pairwise_singleton _ _

/-- Outcome of one subprocess invocation plus the parsing the task applies to
its output: the process can fail (`runCommand` returns an error), the output
can fail `json.Unmarshal`, or the JSON parses and the nested
`bits_per_second` field is either present (with its value) or absent. -/
inductive CmdOutcome where
  | procError
  | badJson
  | parsed (bits : Option ℚ)
deriving DecidableEq

/-- Environment of one test task: outcomes of the (at most) four subprocess
invocations it can make — download attempt, download fallback, upload
attempt, upload fallback. -/
structure TaskEnv where
  download1 : CmdOutcome
  download2 : CmdOutcome
  upload1 : CmdOutcome
  upload2 : CmdOutcome
deriving DecidableEq

/-- One recorded subprocess invocation, tagged with which of the four call
sites issued it and carrying the full argument vector passed to
`runCommand`. -/
inductive Invocation where
  | dlPrimary (args : List String)
  | dlRetry (args : List String)
  | ulPrimary (args : List String)
  | ulRetry (args : List String)
deriving DecidableEq

/-- `commandParts := strings.Split(serverCopy.Command, " ")`
(root.go:3847). -/
def commandParts (command : String) : List String :=
  (goSplit ' ' command.toList).map fun cs => String.mk cs

/-- Primary download invocation (root.go:3855-3858):
`timeout 15 <command…> -t 5 -J`. -/
def downloadArgs (parts : List String) : List String :=
  ["timeout", "15"] ++ parts ++ ["-t", "5", "-J"]

/-- Fallback download invocation (root.go:3869):
`timeout 10 iperf3 -c <host> -p <port> -t 3 -J` — note it uses the
candidate's parsed port, not the default. -/
def retryArgs (s : ServerEntry) : List String :=
  ["timeout", "10", "iperf3", "-c", s.host, "-p", toString s.port, "-t", "3", "-J"]

/-- Primary upload invocation (root.go:3898-3901):
`timeout 15 <command…> -t 5 -R -J`. -/
def uploadArgs (parts : List String) : List String :=
  ["timeout", "15"] ++ parts ++ ["-t", "5", "-R", "-J"]

/-- Fallback upload invocation (root.go:3910). -/
def uploadRetryArgs (s : ServerEntry) : List String :=
  ["timeout", "10", "iperf3", "-c", s.host, "-p", toString s.port, "-t", "3", "-R", "-J"]

/-- One download or upload leg (root.go:3861-3875 and 3903-3916): run the
primary invocation; only when `runCommand` itself failed, run the fallback
once and use its outcome.  A malformed response is not retried, and no second
fallback exists. -/
def runLeg (first second : CmdOutcome) (primary fallback : Invocation) :
    CmdOutcome × List Invocation :=
  match first with
  | .procError => (second, [primary, fallback])
  | o => (o, [primary])

/-- `bitsPerSecond / 1000000` when the field is present; the sentinel `-1`
field value is left in place when it is absent. -/
def mbpsOfBits : Option ℚ → ℚ
  | some b => b / 1000000
  | none => -1

/-- The task body of root.go:3830-3950, as a function of the candidate, its
environment, and the launch rank, returning the emitted `NetblastResult`
together with the trace of subprocess invocations made. -/
def runTaskTrace (s : ServerEntry) (env : TaskEnv) (rank : ℤ) :
    NetblastResult × List Invocation :=
  let base : NetblastResult :=
    ⟨s.host, s.port, s.city ++ ", " ++ s.country, s.distance, -1, -1, false, rank⟩
  let parts := commandParts s.command
  if parts.length < 3 then (base, [])
  else
    let dl := runLeg env.download1 env.download2
      (.dlPrimary (downloadArgs parts)) (.dlRetry (retryArgs s))
    match dl.1 with
    | .procError => (base, dl.2)
    | .badJson => (base, dl.2)
    | .parsed bits =>
      let r1 := { base with downloadMbps := mbpsOfBits bits }
      if 0 < r1.downloadMbps ∧ containsSub s.options.toList ['-', 'R'] then
        let ul := runLeg env.upload1 env.upload2
          (.ulPrimary (uploadArgs parts)) (.ulRetry (uploadRetryArgs s))
        match ul.1 with
        | .procError => (r1, dl.2 ++ ul.2)
        | .badJson => (r1, dl.2 ++ ul.2)
        | .parsed ubits =>
          let r2 := { r1 with uploadMbps := mbpsOfBits ubits }
          let r3 := if 0 < r2.downloadMbps ∧ 0 < r2.uploadMbps then
              { r2 with testCompleted := true }
            else r2
          (r3, dl.2 ++ ul.2)
      else
        let r3 := if 0 < r1.downloadMbps ∧ 0 < r1.uploadMbps then
            { r1 with testCompleted := true }
          else r1
        (r3, dl.2)

/-- The emitted result of one task. -/
def runTask (s : ServerEntry) (env : TaskEnv) (rank : ℤ) : NetblastResult :=
  (runTaskTrace s env rank).1

/-- Fan-out of root.go:3825-3957 starting at launch index `i`: one task per
selected server, each receiving `rank = index + 1`; one result is collected
per task (the channel arrival order is immaterial because aggregation
re-sorts; the launch order is used as the canonical collection order). -/
def runTestsFrom (envs : ℕ → TaskEnv) : ℕ → List ServerEntry → List NetblastResult
  | _, [] => []
  | i, s :: rest => runTask s (envs i) ((i : ℤ) + 1) :: runTestsFrom envs (i + 1) rest

/-- Environment of a candidate whose subprocess invocations always fail. -/
def allFailEnv : TaskEnv :=
  ⟨.procError, .procError, .procError, .procError⟩

/-- C5: every emitted result has `completed = true` iff both measured values
are positive; a candidate whose subprocesses always fail yields the sentinel
result `downloadMbps = uploadMbps = −1`, `completed = false`; and the fan-out
produces exactly one result per selected candidate, each computed from that
candidate's own task alone, so one failing candidate never disturbs the
others. -/
theorem task_results_total_and_sentinel :
    (∀ (s : ServerEntry) (env : TaskEnv) (rank : ℤ),
        ((runTask s env rank).testCompleted = true ↔
          0 < (runTask s env rank).downloadMbps ∧ 0 < (runTask s env rank).uploadMbps))
    ∧ (∀ (s : ServerEntry) (rank : ℤ),
        (runTask s allFailEnv rank).downloadMbps = -1 ∧
          (runTask s allFailEnv rank).uploadMbps = -1 ∧
          (runTask s allFailEnv rank).testCompleted = false)
    ∧ ∀ (envs : ℕ → TaskEnv) (i : ℕ) (servers : List ServerEntry),
        (runTestsFrom envs i servers).length = servers.length ∧
          ∀ (j : ℕ) (hj : j < servers.length)
            (hj2 : j < (runTestsFrom envs i servers).length),
            (runTestsFrom envs i servers).get ⟨j, hj2⟩ =
              runTask (servers.get ⟨j, hj⟩) (envs (i + j)) ((i : ℤ) + (j : ℤ) + 1) := by
  refine ⟨?_, ?_, ?_⟩
  · intro s env rank
    unfold runTask runTaskTrace
    dsimp only
    split
    · simp
    · split
      · simp
      · simp
      · split
        · split
          · simp
          · simp
          · split <;> rename_i hc <;> simp_all
        · split <;> rename_i hc <;> simp_all
  · intro s rank
    unfold runTask runTaskTrace
    simp only [allFailEnv, runLeg]
    split <;> simp
  · intro envs i servers
    induction servers generalizing i with
    | nil =>
      refine ⟨rfl, ?_⟩
      intro j hj
      exact absurd hj (Nat.not_lt_zero j)
    | cons s rest ih =>
      refine ⟨by simp [runTestsFrom, (ih (i + 1)).1], ?_⟩
      intro j hj hj2
      cases j with
      | zero => simp [runTestsFrom]
      | succ k =>
        have hk : k < rest.length := Nat.lt_of_succ_lt_succ hj
        have hk2 : k < (runTestsFrom envs (i + 1) rest).length := by
          rw [(ih (i + 1)).1]
          exact hk
        have := (ih (i + 1)).2 k hk hk2
        simp only [runTestsFrom, List.get_cons_succ]
        rw [this]
        have harg : i + 1 + k = i + (k + 1) := by omega
        rw [harg]
        push_cast
        ring_nf

/-- Concrete candidate used to exercise the task model. -/
def probeEntry : ServerEntry :=
  ⟨"h.example", 5204, "Paris", "FR", 312, 0, 0, "iperf3 -c h.example", "-R", "2x10",
    "ProviderA", 20, 20000, 15⟩

/-- C5 witness: on the singleton selection holding `probeEntry` with an
always-failing environment, the fan-out still yields exactly one result, and
the index-0 result is that candidate's own sentinel task result. -/
theorem task_results_total_and_sentinel_witness :
    (runTestsFrom (fun _ => allFailEnv) 0 [probeEntry]).length = 1 ∧
      (runTestsFrom (fun _ => allFailEnv) 0 [probeEntry]).get
          ⟨0, by simp [runTestsFrom]⟩ =
        runTask probeEntry allFailEnv 1 := by
  have h := task_results_total_and_sentinel.2.2 (fun _ => allFailEnv) 0 [probeEntry]
  refine ⟨h.1, ?_⟩
  have := h.2 0 (by simp) (by simp [runTestsFrom])
  simpa using this

/-- The download-leg invocations of a trace. -/
def dlInvs (tr : List Invocation) : List Invocation :=
  tr.filter fun inv =>
    match inv with
    | .dlPrimary _ => true
    | .dlRetry _ => true
    | _ => false

/-- Candidate for the retry-policy counterexample: its parsed port `5204` is
not the default `5201`. -/
def retryProbeEntry : ServerEntry :=
  ⟨"h.example", 5204, "Paris", "FR", 312, 0, 0, "iperf3 -c h.example", "", "10",
    "ProviderA", 10, 10000, 7⟩

/-- Environment whose download attempt returns malformed JSON. -/
def badJsonEnv : TaskEnv :=
  ⟨.badJson, .procError, .procError, .procError⟩

/-- C6 counterexample: when the download response is malformed the task makes
no second download invocation at all (no retry), and when the process fails
the single retry targets the candidate's own port `5204`, not the default
`5201` — both contradicting the claim. -/
theorem download_retry_counterexample :
    (runTaskTrace retryProbeEntry badJsonEnv 1).2 =
      [.dlPrimary ["timeout", "15", "iperf3", "-c", "h.example", "-t", "5", "-J"]]
    ∧ (runTaskTrace retryProbeEntry allFailEnv 1).2 =
      [.dlPrimary ["timeout", "15", "iperf3", "-c", "h.example", "-t", "5", "-J"],
        .dlRetry ["timeout", "10", "iperf3", "-c", "h.example", "-p", "5204", "-t", "3", "-J"]] :=
  ⟨rfl, rfl⟩

/-- C6 amended: whenever the download subprocess invocation itself fails, the
task retries exactly once, with a shorter duration (3 s instead of 5 s, under
a 10 s instead of 15 s timeout) against the candidate's host and parsed port
and no parallelism flag, before giving up on the download leg; a malformed
response is not retried; and no second retry is ever attempted (the download
leg never makes more than two invocations). -/
theorem download_retry_policy (s : ServerEntry) (env : TaskEnv) (rank : ℤ)
    (hcmd : ¬(commandParts s.command).length < 3) :
    (env.download1 = .procError →
      dlInvs (runTaskTrace s env rank).2 =
        [.dlPrimary (downloadArgs (commandParts s.command)),
          .dlRetry ["timeout", "10", "iperf3", "-c", s.host, "-p", toString s.port,
            "-t", "3", "-J"]])
    ∧ (env.download1 ≠ .procError →
      dlInvs (runTaskTrace s env rank).2 =
        [.dlPrimary (downloadArgs (commandParts s.command))]) := by
  constructor
  · intro h1
    unfold runTaskTrace
    rw [if_neg hcmd, h1]
    simp only [runLeg]
    split
    · simp [dlInvs, retryArgs]
    · simp [dlInvs, retryArgs]
    · split
      · split <;> cases env.upload1 <;>
          simp [runLeg, dlInvs, List.filter_append, retryArgs]
      · simp [dlInvs, retryArgs]
  · intro h1
    unfold runTaskTrace
    rw [if_neg hcmd]
    have hleg : runLeg env.download1 env.download2
        (.dlPrimary (downloadArgs (commandParts s.command))) (.dlRetry (retryArgs s)) =
        (env.download1, [.dlPrimary (downloadArgs (commandParts s.command))]) := by
      cases hd : env.download1
      · exact absurd hd h1
      · simp [runLeg]
      · simp [runLeg]
    rw [hleg]
    dsimp only
    split
    · simp [dlInvs]
    · simp [dlInvs]
    · split
      · split <;> cases env.upload1 <;>
          simp [runLeg, dlInvs, List.filter_append]
      · simp [dlInvs]

/-- C6 amended witness: the policy applied to `retryProbeEntry` under the
always-failing environment — the process failure is retried exactly once, at
port `5204`. -/
theorem download_retry_policy_witness :
    dlInvs (runTaskTrace retryProbeEntry allFailEnv 1).2 =
      [.dlPrimary (downloadArgs (commandParts retryProbeEntry.command)),
        .dlRetry ["timeout", "10", "iperf3", "-c", retryProbeEntry.host, "-p",
          toString retryProbeEntry.port, "-t", "3", "-J"]] :=
  (download_retry_policy retryProbeEntry allFailEnv 1 (by decide)).1 rfl

/-- Model of Go `math.Atan2(y, x)` on the reals (NaN/Inf/signed-zero cases
aside): quadrant-corrected arctangent. -/
noncomputable def atan2 (y x : ℝ) : ℝ :=
  if 0 < x then Real.arctan (y / x)
  else if x < 0 ∧ 0 ≤ y then Real.arctan (y / x) + Real.pi
  else if x < 0 ∧ y < 0 then Real.arctan (y / x) - Real.pi
  else if x = 0 ∧ 0 < y then Real.pi / 2
  else if x = 0 ∧ y < 0 then -(Real.pi / 2)
  else 0

/-- Model of Go's `int(x)` conversion from `float64`: truncation toward
zero. -/
noncomputable def goTruncInt (x : ℝ) : ℤ :=
  if 0 ≤ x then ⌊x⌋ else ⌈x⌉

/-- `calculateDistance` (root.go:4032-4049), transcribed statement by
statement; the final `return int(distance)` is the truncation
`goTruncInt`. -/
noncomputable def calculateDistance (lat1 lon1 lat2 lon2 : ℝ) : ℤ :=
  let earthRadius : ℝ := 6371
  let lat1Rad := lat1 * Real.pi / 180
  let lon1Rad := lon1 * Real.pi / 180
  let lat2Rad := lat2 * Real.pi / 180
  let lon2Rad := lon2 * Real.pi / 180
  let dLat := lat2Rad - lat1Rad
  let dLon := lon2Rad - lon1Rad
  let a := Real.sin (dLat / 2) * Real.sin (dLat / 2) +
    Real.cos lat1Rad * Real.cos lat2Rad * Real.sin (dLon / 2) * Real.sin (dLon / 2)
  let c := 2 * atan2 (Real.sqrt a) (Real.sqrt (1 - a))
  let distance := earthRadius * c
  goTruncInt distance

/-- The `a` of the claim's formula, written as the specification words it:
`a = sin²(Δlat/2) + cos(lat1)·cos(lat2)·sin²(Δlon/2)` after degree-to-radian
conversion. -/
noncomputable def haversineSpecA (lat1 lon1 lat2 lon2 : ℝ) : ℝ :=
  Real.sin ((lat2 * Real.pi / 180 - lat1 * Real.pi / 180) / 2) ^ 2 +
    Real.cos (lat1 * Real.pi / 180) * Real.cos (lat2 * Real.pi / 180) *
      Real.sin ((lon2 * Real.pi / 180 - lon1 * Real.pi / 180) / 2) ^ 2

/-- The `c = 2·atan2(√a, √(1−a))` of the claim's formula. -/
noncomputable def haversineSpecC (lat1 lon1 lat2 lon2 : ℝ) : ℝ :=
  2 * atan2 (Real.sqrt (haversineSpecA lat1 lon1 lat2 lon2))
    (Real.sqrt (1 - haversineSpecA lat1 lon1 lat2 lon2))

/-- The distance exactly as the claim words it: `6371·c`, rounded to the
nearest integer kilometer. -/
noncomputable def distanceKmSpec (lat1 lon1 lat2 lon2 : ℝ) : ℤ :=
  round (6371 * haversineSpecC lat1 lon1 lat2 lon2)

/-- The source's distance agrees with the claim's formula except for the final
integer conversion, which truncates. -/
theorem calculateDistance_trunc_eq (lat1 lon1 lat2 lon2 : ℝ) :
    calculateDistance lat1 lon1 lat2 lon2 =
      goTruncInt (6371 * haversineSpecC lat1 lon1 lat2 lon2) := by
  unfold calculateDistance haversineSpecC
  dsimp only
  have ha : Real.sin ((lat2 * Real.pi / 180 - lat1 * Real.pi / 180) / 2) *
      Real.sin ((lat2 * Real.pi / 180 - lat1 * Real.pi / 180) / 2) +
      Real.cos (lat1 * Real.pi / 180) * Real.cos (lat2 * Real.pi / 180) *
      Real.sin ((lon2 * Real.pi / 180 - lon1 * Real.pi / 180) / 2) *
      Real.sin ((lon2 * Real.pi / 180 - lon1 * Real.pi / 180) / 2) =
      haversineSpecA lat1 lon1 lat2 lon2 := by
    unfold haversineSpecA
    ring
  rw [ha]

/-- Value of the spec-side `a` at the probe point: equator to equator, 90°
of longitude apart. -/
theorem haversineSpecA_probe : haversineSpecA 0 0 0 90 = 1 / 2 := by
  unfold haversineSpecA
  simp only [show (0 : ℝ) * Real.pi / 180 = 0 from by ring]
  rw [show ((0 : ℝ) - 0) / 2 = 0 from by norm_num,
    show ((90 : ℝ) * Real.pi / 180 - 0) / 2 = Real.pi / 4 from by ring,
    Real.sin_zero, Real.cos_zero, Real.sin_pi_div_four]
  rw [div_pow, Real.sq_sqrt (by norm_num : (0 : ℝ) ≤ 2)]
  norm_num

/-- Value of the spec-side `c` at the probe point: a quarter circle. -/
theorem haversineSpecC_probe : haversineSpecC 0 0 0 90 = Real.pi / 2 := by
  unfold haversineSpecC
  rw [haversineSpecA_probe, show (1 : ℝ) - 1 / 2 = 1 / 2 from by norm_num]
  have hx : (0 : ℝ) < Real.sqrt (1 / 2) := Real.sqrt_pos.2 (by norm_num)
  unfold atan2
  rw [if_pos hx, div_self (ne_of_gt hx), Real.arctan_one]
  ring

/-- C4 counterexample: at the probe point the true distance is
`6371·π/2 ≈ 10007.54` km; the code returns `10007` (truncation) while the
claim's rounding to the nearest kilometer gives `10008`. -/
theorem calculateDistance_not_rounded :
    calculateDistance 0 0 0 90 = 10007 ∧ distanceKmSpec 0 0 0 90 = 10008 := by
  have hb1 : (10007.54 : ℝ) < 6371 * (Real.pi / 2) := by nlinarith [Real.pi_gt_d6]
  have hb2 : 6371 * (Real.pi / 2) < 10007.55 := by nlinarith [Real.pi_lt_d6]
  constructor
  · rw [calculateDistance_trunc_eq, haversineSpecC_probe]
    unfold goTruncInt
    rw [if_pos (by positivity)]
    rw [Int.floor_eq_iff]
    constructor
    · push_cast
      linarith
    · push_cast
      linarith
  · unfold distanceKmSpec
    rw [haversineSpecC_probe, round_eq, Int.floor_eq_iff]
    constructor
    · push_cast
      linarith
    · push_cast
      linarith

/-- C4 amended: for every pair of latitude/longitude pairs, the code computes
the Haversine great-circle distance on a sphere of radius 6371 km exactly as
the claim's formula states, but returns it truncated toward zero to an
integer kilometer rather than rounded to the nearest. -/
theorem calculateDistance_formula (lat1 lon1 lat2 lon2 : ℝ) :
    calculateDistance lat1 lon1 lat2 lon2 =
      goTruncInt (6371 *
        (2 * atan2 (Real.sqrt (haversineSpecA lat1 lon1 lat2 lon2))
          (Real.sqrt (1 - haversineSpecA lat1 lon1 lat2 lon2)))) :=
  calculateDistance_trunc_eq lat1 lon1 lat2 lon2

end HyprBench
